import Mathlib

/-!
Verification of the inference-cost-attribution engine core.

Shallow embedding of the Python sources:
  src/models/cost_event.py   (CostEvent, construction-time cost invariant)
  src/models/pricing.py      (PricingTier, PricingModel.calculate_cost)
  src/ledger/ledger.py       (CostLedger: add_event, hashing, queries)
  src/replay/replay_engine.py (ReplayEngine: replay_execution, compare_replay_with_original)

Modelling conventions:
  * Python floats are modelled as exact rationals; every arithmetic step of
    the source is mirrored on the same operands, so control flow is identical.
  * datetime values are modelled as rational instants (totally ordered, with
    isoformat an injective rendering of the instant), and UUID values as
    strings (only equality and str rendering are used by the source).
  * raise / ValueError is modelled with Except; the object state passed in is
    returned untouched on error, which mirrors the source because every raise
    happens before any mutation.
  * SHA-256 over the canonical json.dumps serialization is idealized as an
    injective digest: the digest of an event list is its list of serialized
    field records. Collision resistance, which the specification relies on,
    is thereby an exact property of the model.
-/

/-- CostEvent from src/models/cost_event.py: a frozen (immutable) record of one
cost attribution. Field names and order follow the dataclass. -/
structure CostEvent where
  event_id : String
  timestamp : ℚ
  execution_id : String
  component : String
  action : String
  unit_cost : ℚ
  quantity : ℚ
  total_cost : ℚ
  currency : String
  cost_source : String
  pricing_version : String
  base_unit : String
  metadata : Option (List (String × String)) := none
deriving DecidableEq, Repr

/-- Construction of a CostEvent. Mirrors the dataclass constructor followed by
CostEvent.post_init (src/models/cost_event.py lines 53-55): if
total_cost is not equal to unit_cost * quantity, a ValueError is raised and the
object never exists; otherwise the frozen value holds every field as given. -/
def mk_cost_event (event_id : String) (timestamp : ℚ) (execution_id : String)
    (component : String) (action : String) (unit_cost : ℚ) (quantity : ℚ)
    (total_cost : ℚ) (currency : String) (cost_source : String)
    (pricing_version : String) (base_unit : String)
    (metadata : Option (List (String × String)) := none) :
    Except String CostEvent :=
  if total_cost ≠ unit_cost * quantity then
    .error "Total cost must equal unit cost multiplied by quantity"
  else
    .ok ⟨event_id, timestamp, execution_id, component, action, unit_cost,
         quantity, total_cost, currency, cost_source, pricing_version,
         base_unit, metadata⟩

/-- PricingTier from src/models/pricing.py: none as max_quantity means an
unbounded tier (the source substitutes float inf). -/
structure PricingTier where
  min_quantity : ℚ
  max_quantity : Option ℚ
  unit_cost : ℚ
deriving DecidableEq, Repr

/-- PricingModel from src/models/pricing.py. -/
structure PricingModel where
  id : String
  version : String
  component : String
  pricing_type : String
  base_unit : String
  tiers : List PricingTier
  fixed_fee : Option ℚ := none
  metadata : Option (List (String × String)) := none
deriving DecidableEq, Repr

/-- The three ValueError raise sites of PricingModel.calculate_cost, by kind
(spec section 7 names the kinds; the source raises ValueError with a message
at each site). Both raise sites whose message begins with "No applicable
pricing tier" are the unsupportedQuantity kind. -/
inductive PricingError where
  | invalidQuantity
  | noPricingTiers
  | unsupportedQuantity
deriving DecidableEq, Repr

/-- sorted(self.tiers, key=lambda t: t.min_quantity) — the Python sorted
builtin is a stable sort by the key; insertion sort with this relation is
stable for the same key, so it produces the identical list. -/
def sort_tiers (tiers : List PricingTier) : List PricingTier :=
  List.insertionSort (fun a b => a.min_quantity ≤ b.min_quantity) tiers

/-- The loop state of calculate_cost: the three local variables total_cost,
processed_up_to and remaining_quantity. -/
structure WalkState where
  total_cost : ℚ
  processed_up_to : ℚ
  remaining_quantity : ℚ
deriving DecidableEq, Repr

/-- The for-loop of calculate_cost (src/models/pricing.py lines 82-101) over
the sorted tiers. min quantity inf is the quantity itself, so an unbounded
tier caps at the requested quantity exactly as the source does with float inf. -/
def tier_walk (quantity : ℚ) : List PricingTier → WalkState → WalkState
  | [], s => s
  | tier :: rest, s =>
    if s.remaining_quantity ≤ 0 then s
    else if tier.min_quantity > quantity then s
    else
      let tier_start := max tier.min_quantity s.processed_up_to
      let capped_end :=
        match tier.max_quantity with
        | none => quantity
        | some mx => min quantity mx
      let quantity_in_tier := capped_end - tier_start
      if quantity_in_tier > 0 then
        tier_walk quantity rest
          ⟨s.total_cost + quantity_in_tier * tier.unit_cost,
           capped_end,
           s.remaining_quantity - quantity_in_tier⟩
      else
        tier_walk quantity rest s

/-- The epsilon of the residual check in calculate_cost (line 104). -/
def walk_epsilon : ℚ := 1 / 1000000000

/-- PricingModel.calculate_cost (src/models/pricing.py lines 43-110).
The source checks emptiness of the unsorted tier list and then indexes the
sorted list; sorting preserves emptiness, so matching on the sorted list is
the same test. The walk starts from total = fixed_fee or 0, processed 0,
remaining = quantity, exactly as the source locals are initialized. -/
def PricingModel.calculate_cost (m : PricingModel) (quantity : ℚ) :
    Except PricingError ℚ :=
  if quantity < 0 then .error .invalidQuantity
  else
    match sort_tiers m.tiers with
    | [] => .error .noPricingTiers
    | t0 :: rest =>
      if quantity < t0.min_quantity then .error .unsupportedQuantity
      else
        let final := tier_walk quantity (t0 :: rest) ⟨m.fixed_fee.getD 0, 0, quantity⟩
        if final.remaining_quantity > walk_epsilon then .error .unsupportedQuantity
        else .ok final.total_cost

/-- One entry of the canonical serialization produced by
CostLedger.event_to_dict (src/ledger/ledger.py lines 39-55): every field of
the event, identifiers rendered by str and the timestamp by isoformat (both
injective renderings, modelled by the values themselves). -/
structure EventRecord where
  event_id : String
  timestamp : ℚ
  execution_id : String
  component : String
  action : String
  unit_cost : ℚ
  quantity : ℚ
  total_cost : ℚ
  currency : String
  cost_source : String
  pricing_version : String
  base_unit : String
  metadata : Option (List (String × String))
deriving DecidableEq, Repr

/-- CostLedger.event_to_dict: the serialized record of one event. -/
def event_to_dict (e : CostEvent) : EventRecord :=
  ⟨e.event_id, e.timestamp, e.execution_id, e.component, e.action, e.unit_cost,
   e.quantity, e.total_cost, e.currency, e.cost_source, e.pricing_version,
   e.base_unit, e.metadata⟩

/-- The digest type. In the source this is the SHA-256 hex digest of
json.dumps of the record list with sorted keys; the serialization is injective
on the field values (stable key order, injective renderings) and SHA-256 is
relied on as collision resistant, so the digest is idealized as the canonical
record list itself. -/
abbrev LedgerDigest := List EventRecord

/-- The body of CostLedger.update_hash (src/ledger/ledger.py lines 30-37):
serialize every event and digest the whole list. -/
def ledger_digest (events : List CostEvent) : LedgerDigest :=
  events.map event_to_dict

/-- CostLedger state: the private fields events and hashes. -/
structure CostLedger where
  events : List CostEvent
  hashes : List LedgerDigest
deriving DecidableEq, Repr

/-- CostLedger.init: both lists start empty. -/
def empty_ledger : CostLedger := ⟨[], []⟩

/-- CostLedger.add_event (src/ledger/ledger.py lines 21-28): raise ValueError
when the ledger is non-empty and the new timestamp is strictly earlier than
the last event timestamp (the raise precedes any mutation, so the error case
returns no changed state); otherwise append the event and then append the
digest of the full new event list (update_hash). -/
def CostLedger.add_event (l : CostLedger) (event : CostEvent) :
    Except String CostLedger :=
  match l.events.getLast? with
  | some last =>
    if event.timestamp < last.timestamp then
      .error "Events must be added in chronological order"
    else
      .ok ⟨l.events ++ [event], l.hashes ++ [ledger_digest (l.events ++ [event])]⟩
  | none =>
    .ok ⟨l.events ++ [event], l.hashes ++ [ledger_digest (l.events ++ [event])]⟩

/-- CostLedger.get_events_by_execution: the events whose execution_id equals
the argument, in ledger order. -/
def CostLedger.get_events_by_execution (l : CostLedger) (execution_id : String) :
    List CostEvent :=
  l.events.filter (fun e => e.execution_id == execution_id)

/-- CostLedger.get_total_cost: sum of total_cost over all events. -/
def CostLedger.get_total_cost (l : CostLedger) : ℚ :=
  (l.events.map CostEvent.total_cost).sum

/-- CostLedger.get_ledger_hash (src/ledger/ledger.py lines 73-78): the last
recorded hash, or the digest of the empty list for a ledger that has no
hashes yet (the source returns sha256 of the two-byte string for the empty
JSON list, which is exactly the digest of the empty event list). -/
def CostLedger.get_ledger_hash (l : CostLedger) : LedgerDigest :=
  match l.hashes.getLast? with
  | none => ledger_digest []
  | some h => h

/-- CostLedger.verify_integrity: equality with the current hash. -/
def CostLedger.verify_integrity (l : CostLedger) (expected : LedgerDigest) : Bool :=
  l.get_ledger_hash == expected

/-- CostLedger.replay_cost: sum of recorded total_cost for one execution. -/
def CostLedger.replay_cost (l : CostLedger) (execution_id : String) : ℚ :=
  ((l.get_events_by_execution execution_id).map CostEvent.total_cost).sum

/-- The ledger states reachable through the public interface: the empty state
of the constructor, closed under successful add_event calls. Failed calls
raise before mutating, and reads do not mutate, so they do not change the
state. -/
inductive Reachable : CostLedger → Prop
  | init : Reachable empty_ledger
  | add (l l2 : CostLedger) (e : CostEvent) :
      Reachable l → l.add_event e = .ok l2 → Reachable l2

/-- Appending every event of a list in order, starting from a given ledger;
the first failure propagates. -/
def add_all (l : CostLedger) : List CostEvent → Except String CostLedger
  | [] => .ok l
  | e :: rest =>
    match l.add_event e with
    | .error msg => .error msg
    | .ok l2 => add_all l2 rest

/-- A ledger constructed fresh and fed one event list. -/
def build_ledger (events : List CostEvent) : Except String CostLedger :=
  add_all empty_ledger events

/-- The ValueError raise sites reachable from ReplayEngine.replay_execution,
by kind: the two raises of replay_execution itself (unknown pricing version,
cost mismatch) and the pricing errors propagating out of calculate_cost. -/
inductive ReplayError where
  | unknownPricingVersion (version : String)
  | costMismatch (event_id : String) (expected got : ℚ)
  | pricingFailure (e : PricingError)
deriving DecidableEq, Repr

/-- The tolerance of the reconciliation checks (1e-6 in the source). -/
def mismatch_epsilon : ℚ := 1 / 1000000

/-- The pricing_models dictionary: a string-keyed mapping of pricing models. -/
abbrev PricingCatalog := List (String × PricingModel)

/-- ReplayEngine state: the catalog supplied at construction. -/
structure ReplayEngine where
  pricing_models : PricingCatalog

/-- The body of the per-event loop of ReplayEngine.replay_execution
(src/replay/replay_engine.py lines 36-53): look the pricing version up,
recompute the cost for the event quantity, and fail when the recomputed cost
differs from the recorded total by more than the tolerance. -/
def replay_one (models : PricingCatalog) (event : CostEvent) :
    Except ReplayError ℚ :=
  match models.lookup event.pricing_version with
  | none => .error (.unknownPricingVersion event.pricing_version)
  | some pricing_model =>
    match pricing_model.calculate_cost event.quantity with
    | .error pe => .error (.pricingFailure pe)
    | .ok calculated_cost =>
      if |calculated_cost - event.total_cost| > mismatch_epsilon then
        .error (.costMismatch event.event_id calculated_cost event.total_cost)
      else
        .ok calculated_cost

/-- The loop of replay_execution: accumulate the recomputed costs, stopping at
the first failing event. -/
def replay_events (models : PricingCatalog) :
    List CostEvent → ℚ → Except ReplayError ℚ
  | [], total => .ok total
  | e :: rest, total =>
    match replay_one models e with
    | .error err => .error err
    | .ok c => replay_events models rest (total + c)

/-- ReplayEngine.replay_execution (src/replay/replay_engine.py lines 18-55). -/
def ReplayEngine.replay_execution (engine : ReplayEngine) (execution_id : String)
    (ledger : CostLedger) : Except ReplayError ℚ :=
  replay_events engine.pricing_models
    (ledger.get_events_by_execution execution_id) 0

/-- The dictionary returned by compare_replay_with_original: the success shape
holds execution_id, original_cost, replayed_cost, delta and status; the
failure shape holds execution_id, the error message and status. -/
inductive ReplayReport where
  | result (execution_id : String) (original_cost replayed_cost delta : ℚ)
      (status : String)
  | failure (execution_id : String) (error_message : String) (status : String)
deriving DecidableEq, Repr

/-- The str rendering of the caught exception, mirroring the ValueError
messages of the source (value details elided where the source interpolates
numbers into the message). -/
def replay_error_message : ReplayError → String
  | .unknownPricingVersion v => "Unknown pricing version: " ++ v
  | .costMismatch eid expected got =>
      "Cost mismatch for event " ++ eid ++ ": expected " ++ toString expected
        ++ ", got " ++ toString got
  | .pricingFailure .invalidQuantity => "Quantity cannot be negative"
  | .pricingFailure .noPricingTiers => "No pricing tiers defined"
  | .pricingFailure .unsupportedQuantity => "No applicable pricing tier"

/-- ReplayEngine.compare_replay_with_original (src/replay/replay_engine.py
lines 57-86). The current_pricing parameter is accepted and, as in the
source, never read: the recomputation inside the try block calls
self.replay_execution, which uses the catalog held by the engine. The
try/except Exception wrapper makes the operation total: every failure of the
replay becomes the failure-shaped report. -/
def ReplayEngine.compare_replay_with_original (engine : ReplayEngine)
    (execution_id : String) (original_ledger : CostLedger)
    (current_pricing : PricingCatalog) : ReplayReport :=
  match engine.replay_execution execution_id original_ledger with
  | .ok replayed_cost =>
    let original_cost :=
      ((original_ledger.get_events_by_execution execution_id).map
        CostEvent.total_cost).sum
    .result execution_id original_cost replayed_cost
      (replayed_cost - original_cost)
      (if |replayed_cost - original_cost| < mismatch_epsilon then "match"
       else "mismatch")
  | .error err => .failure execution_id (replay_error_message err) "error"

/-! ## Helper lemmas -/

lemma add_event_ok_cases {l : CostLedger} {e : CostEvent} {l2 : CostLedger}
    (h : l.add_event e = .ok l2) :
    l2.events = l.events ++ [e]
    ∧ l2.hashes = l.hashes ++ [ledger_digest (l.events ++ [e])]
    ∧ (∀ last, l.events.getLast? = some last → last.timestamp ≤ e.timestamp) := by
  unfold CostLedger.add_event at h
  split at h
  next last hl =>
    by_cases ht : e.timestamp < last.timestamp
    · rw [if_pos ht] at h
      cases h
    · rw [if_neg ht] at h
      injection h with h
      subst h
      refine ⟨rfl, rfl, ?_⟩
      intro last2 hl2
      rw [hl] at hl2
      injection hl2 with hl2
      subst hl2
      exact not_lt.mp ht
  next hl =>
    injection h with h
    subst h
    refine ⟨rfl, rfl, ?_⟩
    intro last hl2
    rw [hl] at hl2
    cases hl2

lemma add_event_error_cond {l : CostLedger} {e : CostEvent} :
    (∃ msg, l.add_event e = .error msg) ↔
      ∃ last, l.events.getLast? = some last ∧ e.timestamp < last.timestamp := by
  unfold CostLedger.add_event
  cases hl : l.events.getLast? with
  | none => simp
  | some last =>
    by_cases ht : e.timestamp < last.timestamp
    · simp [ht]
    · simp [ht]

/-! ## C1 -/

/-- C1: constructing a CostEvent succeeds if and only if total_cost equals
unit_cost * quantity exactly; when they differ, construction fails with the
validation error and no object exists; when they are equal, construction
succeeds with every field held exactly as given (no other field-level
validation); the resulting value is an immutable record (the structure has no
mutating operation, mirroring the frozen dataclass). -/
theorem C1_cost_event_construction (event_id : String) (timestamp : ℚ)
    (execution_id component action : String)
    (unit_cost quantity total_cost : ℚ)
    (currency cost_source pricing_version base_unit : String)
    (metadata : Option (List (String × String))) :
    ((∃ ev, mk_cost_event event_id timestamp execution_id component action
        unit_cost quantity total_cost currency cost_source pricing_version
        base_unit metadata = .ok ev) ↔ total_cost = unit_cost * quantity)
    ∧ (∀ ev, mk_cost_event event_id timestamp execution_id component action
        unit_cost quantity total_cost currency cost_source pricing_version
        base_unit metadata = .ok ev →
        ev = ⟨event_id, timestamp, execution_id, component, action, unit_cost,
              quantity, total_cost, currency, cost_source, pricing_version,
              base_unit, metadata⟩)
    ∧ (total_cost ≠ unit_cost * quantity →
        mk_cost_event event_id timestamp execution_id component action
          unit_cost quantity total_cost currency cost_source pricing_version
          base_unit metadata =
          .error "Total cost must equal unit cost multiplied by quantity") := by
  unfold mk_cost_event
  by_cases h : total_cost = unit_cost * quantity
  · simp [h]
  · simp [h]

/-! ## C2 -/

/-- C2: add_event fails (with the ordering ValueError) if and only if the
ledger is non-empty and the timestamp of the new event is strictly earlier
than the timestamp of the last appended event, so equal timestamps are
accepted; the failing case produces no new ledger state, so the event list
and the hash list stay exactly as they were (the raise in the source precedes
any mutation); a successful call appends exactly the one event at the end and
exactly one hash. -/
theorem C2_add_event_ordering (l : CostLedger) (e : CostEvent) :
    ((∃ msg, l.add_event e = .error msg) ↔
      ∃ last, l.events.getLast? = some last ∧ e.timestamp < last.timestamp)
    ∧ (∀ l2, l.add_event e = .ok l2 →
        l2.events = l.events ++ [e]
        ∧ l2.hashes = l.hashes ++ [ledger_digest (l.events ++ [e])]) := by
  refine ⟨add_event_error_cond, ?_⟩
  intro l2 h
  exact ⟨(add_event_ok_cases h).1, (add_event_ok_cases h).2.1⟩

/-! ## Reachability invariants -/

/-- The hash list the source maintains: entry i is the digest of the first
i + 1 events (update_hash digests the whole current list at each append). -/
def hash_chain (events : List CostEvent) : List LedgerDigest :=
  (List.range events.length).map (fun i => ledger_digest (events.take (i + 1)))

lemma hash_chain_snoc (es : List CostEvent) (e : CostEvent) :
    hash_chain (es ++ [e]) = hash_chain es ++ [ledger_digest (es ++ [e])] := by
  unfold hash_chain
  rw [List.length_append, List.length_singleton, List.range_succ, List.map_append]
  congr 1
  · apply List.map_congr_left
    intro i hi
    rw [List.mem_range] at hi
    rw [List.take_append_of_le_length (by omega)]
  · simp only [List.map_cons, List.map_nil]
    rw [List.take_of_length_le (by simp)]

lemma mem_le_getLast {α : Type} [LinearOrder α] {xs : List α}
    (hs : xs.Sorted (fun a b => a ≤ b)) {x b : α}
    (hx : x ∈ xs) (hb : xs.getLast? = some b) : x ≤ b := by
  induction xs with
  | nil => cases hx
  | cons a t ih =>
    cases t with
    | nil =>
      simp at hx hb
      subst hx
      subst hb
      exact le_refl x
    | cons c u =>
      rw [List.getLast?_cons_cons] at hb
      rcases List.mem_cons.mp hx with rfl | hx2
      · have hbmem : b ∈ c :: u := List.mem_of_getLast?_eq_some hb
        exact (List.sorted_cons.mp hs).1 b hbmem
      · exact ih (List.sorted_cons.mp hs).2 hx2 hb

lemma reachable_state {l : CostLedger} (h : Reachable l) :
    l.hashes = hash_chain l.events
    ∧ List.Sorted (fun a b => a ≤ b) (l.events.map CostEvent.timestamp) := by
  induction h with
  | init => exact ⟨rfl, by simp [empty_ledger]⟩
  | add l l2 e hr hadd ih =>
    obtain ⟨hev, hhash, hord⟩ := add_event_ok_cases hadd
    refine ⟨by rw [hhash, hev, hash_chain_snoc, ih.1], ?_⟩
    rw [hev, List.map_append]
    refine List.pairwise_append.mpr ⟨ih.2, by simp, ?_⟩
    intro a ha b hb
    simp only [List.map_cons, List.map_nil, List.mem_singleton] at hb
    subst hb
    cases hlast : l.events.getLast? with
    | none =>
      rw [List.getLast?_eq_none_iff] at hlast
      rw [hlast] at ha
      cases ha
    | some last =>
      have h1 : a ≤ last.timestamp := by
        apply mem_le_getLast ih.2 ha
        rw [List.getLast?_map, hlast]
        rfl
      exact le_trans h1 (hord last hlast)

lemma reachable_hash_chain_getLast (es : List CostEvent) :
    (hash_chain es).getLast? = if es = [] then none else some (ledger_digest es) := by
  induction es using List.reverseRecOn with
  | nil => rfl
  | append_singleton es e ih =>
    rw [hash_chain_snoc, List.getLast?_concat]
    simp

lemma reachable_get_ledger_hash {l : CostLedger} (h : Reachable l) :
    l.get_ledger_hash = ledger_digest l.events := by
  unfold CostLedger.get_ledger_hash
  rw [(reachable_state h).1, reachable_hash_chain_getLast]
  by_cases he : l.events = []
  · rw [if_pos he, he]
  · rw [if_neg he]

lemma event_to_dict_injective : Function.Injective event_to_dict := by
  intro a b h
  cases a
  cases b
  simp only [event_to_dict, EventRecord.mk.injEq] at h
  simp only [CostEvent.mk.injEq]
  exact h

/-! ## C10 -/

/-- C10: on every ledger reachable from the empty ledger by any sequence of
operations (reads do not mutate, and a failed add_event raises before
mutating, so reachability is closure of the empty state under successful
appends), the hash list has exactly the length of the event list with hash i
the digest of events 0..i, and the event sequence is non-decreasing by
timestamp. -/
theorem C10_reachable_invariants (l : CostLedger) (h : Reachable l) :
    l.hashes.length = l.events.length
    ∧ (∀ i (hi : i < l.hashes.length),
        l.hashes.get ⟨i, hi⟩ = ledger_digest (l.events.take (i + 1)))
    ∧ List.Sorted (fun a b => a ≤ b) (l.events.map CostEvent.timestamp) := by
  obtain ⟨hh, hs⟩ := reachable_state h
  refine ⟨by rw [hh]; simp [hash_chain], ?_, hs⟩
  intro i hi
  have hi2 : i < (hash_chain l.events).length := by rw [← hh]; exact hi
  simp only [List.get_eq_getElem]
  rw [List.getElem_of_eq hh hi]
  simp only [hash_chain, List.getElem_map, List.getElem_range]

/-- The sample event of the ledger tests (timestamps and costs as exact
rationals). -/
def ev1 : CostEvent :=
  ⟨"e1", 1, "x1", "model", "invoke", 3/100, 1000, 30, "USD", "openai",
   "gpt-4:v1.0.0", "token", none⟩

/-- The one-event ledger obtained by appending ev1 to a fresh ledger. -/
def ledger1 : CostLedger := ⟨[ev1], [ledger_digest [ev1]]⟩

/-- C10 witness: the invariants hold of the concrete reachable one-event
ledger. -/
theorem C10_witness :
    ledger1.hashes.length = ledger1.events.length
    ∧ (∀ i (hi : i < ledger1.hashes.length),
        ledger1.hashes.get ⟨i, hi⟩ = ledger_digest (ledger1.events.take (i + 1)))
    ∧ List.Sorted (fun a b => a ≤ b) (ledger1.events.map CostEvent.timestamp) :=
  C10_reachable_invariants ledger1
    (Reachable.add empty_ledger ledger1 ev1 Reachable.init rfl)

/-! ## C3 -/

/-- C3: get_ledger_hash on a freshly created ledger is the one fixed digest of
the empty event list; every successful add_event on a reachable ledger state
changes the value of get_ledger_hash (the new digest covers one more event,
and the idealized digest is injective, which is what the source obtains from
SHA-256 collision resistance); and two separately constructed ledgers fed
event sequences with identical serialized field values end with identical
hash sequences and identical current hashes — the hash depends only on the
serialized field values of the event sequence. -/
theorem C3_ledger_hash_properties :
    (empty_ledger.get_ledger_hash = ledger_digest [])
    ∧ (∀ l e l2, Reachable l → l.add_event e = .ok l2 →
        l2.get_ledger_hash ≠ l.get_ledger_hash)
    ∧ (∀ es1 es2 l1 l2,
        es1.map event_to_dict = es2.map event_to_dict →
        build_ledger es1 = .ok l1 → build_ledger es2 = .ok l2 →
        l1.hashes = l2.hashes ∧ l1.get_ledger_hash = l2.get_ledger_hash) := by
  refine ⟨rfl, ?_, ?_⟩
  · intro l e l2 hr hadd
    obtain ⟨hev, _, _⟩ := add_event_ok_cases hadd
    have hr2 : Reachable l2 := Reachable.add l l2 e hr hadd
    rw [reachable_get_ledger_hash hr, reachable_get_ledger_hash hr2, hev]
    intro hcontra
    have hlen := congrArg List.length hcontra
    simp [ledger_digest] at hlen
  · intro es1 es2 l1 l2 hmap h1 h2
    have hes : es1 = es2 :=
      (List.map_injective_iff.mpr event_to_dict_injective) hmap
    subst hes
    rw [h1] at h2
    injection h2 with h2
    subst h2
    exact ⟨rfl, rfl⟩

/-! ## Replay characterization -/

lemma replay_events_ok_iff (models : PricingCatalog) (es : List CostEvent)
    (acc t : ℚ) :
    replay_events models es acc = .ok t ↔
      ∃ cs : List ℚ,
        List.Forall₂ (fun e c => replay_one models e = .ok c) es cs
        ∧ t = acc + cs.sum := by
  induction es generalizing acc with
  | nil =>
    simp only [replay_events, List.forall₂_nil_left_iff]
    constructor
    · intro h
      injection h with h
      exact ⟨[], rfl, by simp [h]⟩
    · rintro ⟨cs, rfl, rfl⟩
      simp
  | cons e rest ih =>
    cases hro : replay_one models e with
    | error err =>
      simp only [replay_events, hro]
      constructor
      · intro h
        cases h
      · rintro ⟨cs, hall, rfl⟩
        rcases List.forall₂_cons_left_iff.mp hall with ⟨c, cs2, hc, _, rfl⟩
        rw [hro] at hc
        cases hc
    | ok c =>
      simp only [replay_events, hro, ih]
      constructor
      · rintro ⟨cs, hall, rfl⟩
        exact ⟨c :: cs, List.Forall₂.cons hro hall, by simp [add_assoc]⟩
      · rintro ⟨cs, hall, rfl⟩
        rcases List.forall₂_cons_left_iff.mp hall with ⟨c2, cs2, hc, hall2, rfl⟩
        rw [hro] at hc
        injection hc with hc
        subst hc
        exact ⟨cs2, hall2, by simp [add_assoc]⟩

lemma replay_events_error_iff (models : PricingCatalog) (es : List CostEvent)
    (acc : ℚ) (err : ReplayError) :
    replay_events models es acc = .error err ↔
      ∃ pre e post, es = pre ++ e :: post
        ∧ (∀ e2 ∈ pre, ∃ c, replay_one models e2 = .ok c)
        ∧ replay_one models e = .error err := by
  induction es generalizing acc with
  | nil =>
    simp only [replay_events]
    constructor
    · intro h
      cases h
    · rintro ⟨pre, e, post, heq, -, -⟩
      exact absurd heq.symm (List.append_ne_nil_of_right_ne_nil pre (List.cons_ne_nil e post))
  | cons a rest ih =>
    cases hro : replay_one models a with
    | error ea =>
      simp only [replay_events, hro]
      constructor
      · intro h
        injection h with h
        subst h
        exact ⟨[], a, rest, rfl, by simp, hro⟩
      · rintro ⟨pre, e, post, heq, hpre, he⟩
        cases pre with
        | nil =>
          simp only [List.nil_append] at heq
          injection heq with h1 h2
          subst h1
          rw [hro] at he
          injection he with he
          rw [he]
        | cons p ps =>
          simp only [List.cons_append] at heq
          injection heq with h1 h2
          subst h1
          rcases hpre a (by simp) with ⟨c, hc⟩
          rw [hro] at hc
          cases hc
    | ok c =>
      simp only [replay_events, hro, ih]
      constructor
      · rintro ⟨pre, e, post, heq, hpre, he⟩
        refine ⟨a :: pre, e, post, by rw [List.cons_append, heq], ?_, he⟩
        intro e2 he2
        rcases List.mem_cons.mp he2 with rfl | he3
        · exact ⟨c, hro⟩
        · exact hpre e2 he3
      · rintro ⟨pre, e, post, heq, hpre, he⟩
        cases pre with
        | nil =>
          simp only [List.nil_append] at heq
          injection heq with h1 h2
          subst h1
          rw [hro] at he
          cases he
        | cons p ps =>
          simp only [List.cons_append] at heq
          injection heq with h1 h2
          subst h1
          refine ⟨ps, e, post, h2, ?_, he⟩
          intro e2 he2
          exact hpre e2 (by simp [he2])

/-! ## C4 -/

/-- A single-tier unbounded model at unit cost 1, used to exhibit a replay
whose per-event recomputation itself fails. -/
def basic_model : PricingModel :=
  { id := "pm-basic", version := "v1", component := "model",
    pricing_type := "token", base_unit := "token",
    tiers := [⟨0, none, 1⟩] }

/-- A fully valid CostEvent (its cost triple satisfies the construction
invariant: 1 * (-1) = -1) whose quantity is negative. -/
def neg_event : CostEvent :=
  ⟨"e-neg", 1, "xneg", "model", "invoke", 1, -1, -1, "USD", "vendor",
   "model:v1", "token", none⟩

/-- A ledger holding exactly neg_event. -/
def neg_ledger : CostLedger := ⟨[neg_event], [ledger_digest [neg_event]]⟩

/-- An engine whose catalog knows the pricing version of neg_event. -/
def neg_engine : ReplayEngine := ⟨[("model:v1", basic_model)]⟩

/-- C4 counterexample: the claim enumerates exactly two per-event failure
modes (unknown pricing version, cost mismatch) and states that replay returns
the sum if and only if every matching event passes both checks. Here the one
matching event passes both: its pricing version is in the catalog, and no
recomputed cost differing from its total exists, because the recomputation
itself raises InvalidQuantity on the negative quantity — yet replay_execution
fails (with that pricing error) instead of returning a sum, so the stated
equivalence is false on the code. -/
theorem C4_counterexample :
    neg_ledger.get_events_by_execution "xneg" = [neg_event]
    ∧ (neg_engine.pricing_models.lookup neg_event.pricing_version
        = some basic_model)
    ∧ basic_model.calculate_cost neg_event.quantity
        = .error PricingError.invalidQuantity
    ∧ neg_engine.replay_execution "xneg" neg_ledger
        = .error (ReplayError.pricingFailure PricingError.invalidQuantity) := by
  refine ⟨?_, ?_, ?_, ?_⟩
  · simp [neg_ledger, CostLedger.get_events_by_execution, neg_event]
  · simp [neg_engine, neg_event, List.lookup]
  · norm_num [basic_model, neg_event, PricingModel.calculate_cost]
  · simp only [ReplayEngine.replay_execution, neg_engine, neg_ledger, neg_event]
    norm_num [CostLedger.get_events_by_execution, replay_events, replay_one,
      List.lookup, basic_model, PricingModel.calculate_cost, neg_event]

/-- C4 (amended): replay_execution walks the events matching the execution_id
in ledger order; an event passes when its pricing_version is a key of the
catalog held by the engine, the tiered recomputation for its quantity
succeeds, and the recomputed cost is within 1e-6 of its recorded total_cost
(replay_one packages exactly these three steps, failing respectively with
UnknownPricingVersion, the propagated pricing error, or CostMismatch).
replay_execution returns a total if and only if every matching event passes,
and that total is the sum of the recomputed costs; it fails with the error of
the first failing event, every event before which passes — all-or-nothing,
never a partial total. -/
theorem C4_amended_replay_execution (engine : ReplayEngine)
    (execution_id : String) (ledger : CostLedger) :
    (∀ t, engine.replay_execution execution_id ledger = .ok t ↔
      ∃ cs : List ℚ,
        List.Forall₂ (fun e c => replay_one engine.pricing_models e = .ok c)
          (ledger.get_events_by_execution execution_id) cs
        ∧ t = cs.sum)
    ∧ (∀ err, engine.replay_execution execution_id ledger = .error err ↔
      ∃ pre e post,
        ledger.get_events_by_execution execution_id = pre ++ e :: post
        ∧ (∀ e2 ∈ pre, ∃ c, replay_one engine.pricing_models e2 = .ok c)
        ∧ replay_one engine.pricing_models e = .error err) := by
  constructor
  · intro t
    rw [ReplayEngine.replay_execution, replay_events_ok_iff]
    simp
  · intro err
    rw [ReplayEngine.replay_execution, replay_events_error_iff]

/-! ## C5 -/

/-- C5: compare_replay_with_original is a total function (the try/except of
the source catches every exception, so it never raises). When the underlying
replay succeeds it returns the result-shaped report whose original_cost is
the sum of the recorded total_cost of the matching events, whose delta is
replayed_cost - original_cost, and whose status is match exactly when the
absolute delta is below 1e-6 and mismatch otherwise; when the replay fails in
any way (an unknown pricing version included) it returns the failure-shaped
report carrying the error message and the status error, instead of
propagating the exception. -/
theorem C5_compare_never_raises (engine : ReplayEngine) (execution_id : String)
    (ledger : CostLedger) (current_pricing : PricingCatalog) :
    (∃ rc st,
      engine.replay_execution execution_id ledger = .ok rc
      ∧ engine.compare_replay_with_original execution_id ledger current_pricing
        = ReplayReport.result execution_id
            ((ledger.get_events_by_execution execution_id).map
              CostEvent.total_cost).sum
            rc
            (rc - ((ledger.get_events_by_execution execution_id).map
              CostEvent.total_cost).sum)
            st
      ∧ (st = "match" ∨ st = "mismatch")
      ∧ (st = "match" ↔
          |rc - ((ledger.get_events_by_execution execution_id).map
            CostEvent.total_cost).sum| < mismatch_epsilon))
    ∨ (∃ err,
      engine.replay_execution execution_id ledger = .error err
      ∧ engine.compare_replay_with_original execution_id ledger current_pricing
        = ReplayReport.failure execution_id (replay_error_message err) "error") := by
  unfold ReplayEngine.compare_replay_with_original
  cases hre : engine.replay_execution execution_id ledger with
  | ok rc =>
    left
    refine ⟨rc,
      (if |rc - ((ledger.get_events_by_execution execution_id).map
        CostEvent.total_cost).sum| < mismatch_epsilon then "match"
       else "mismatch"), rfl, rfl, ?_, ?_⟩
    · by_cases h : |rc - ((ledger.get_events_by_execution execution_id).map
        CostEvent.total_cost).sum| < mismatch_epsilon
      · exact Or.inl (by rw [if_pos h])
      · exact Or.inr (by rw [if_neg h])
    · by_cases h : |rc - ((ledger.get_events_by_execution execution_id).map
        CostEvent.total_cost).sum| < mismatch_epsilon
      · rw [if_pos h]
        simp [h]
      · rw [if_neg h]
        constructor
        · intro hcontra
          exact absurd hcontra (by decide)
        · intro hcontra
          exact absurd hcontra h
  | error err =>
    right
    exact ⟨err, rfl, rfl⟩

/-! ## C6 -/

/-- C6: the current_pricing argument of compare_replay_with_original has no
influence on the result: for any two catalogs the reports are identical,
because the recomputation inside the try block calls self.replay_execution,
which reads only the catalog supplied at engine construction — the parameter
is never read. -/
theorem C6_current_pricing_ignored (engine : ReplayEngine)
    (execution_id : String) (ledger : CostLedger)
    (p1 p2 : PricingCatalog) :
    engine.compare_replay_with_original execution_id ledger p1
      = engine.compare_replay_with_original execution_id ledger p2 := rfl

/-! ## Pricing characterization -/

lemma sort_tiers_eq_nil (ts : List PricingTier) :
    sort_tiers ts = [] ↔ ts = [] := by
  constructor
  · intro h
    have hl := List.length_insertionSort
      (fun a b : PricingTier => a.min_quantity ≤ b.min_quantity) ts
    rw [sort_tiers] at h
    rw [h] at hl
    exact List.length_eq_zero.mp hl.symm
  · intro h
    rw [h]
    rfl

lemma calc_invalid_iff (m : PricingModel) (q : ℚ) :
    m.calculate_cost q = .error PricingError.invalidQuantity ↔ q < 0 := by
  unfold PricingModel.calculate_cost
  by_cases hq : q < 0
  · simp [hq]
  · rw [if_neg hq]
    cases hs : sort_tiers m.tiers with
    | nil => simp [hq]
    | cons t0 rest =>
      dsimp only
      by_cases h1 : q < t0.min_quantity
      · simp [h1, hq]
      · rw [if_neg h1]
        by_cases h2 : (tier_walk q (t0 :: rest)
            ⟨m.fixed_fee.getD 0, 0, q⟩).remaining_quantity > walk_epsilon
        · simp [h2, hq]
        · simp [h2, hq]

lemma calc_no_tiers_iff (m : PricingModel) (q : ℚ) :
    m.calculate_cost q = .error PricingError.noPricingTiers ↔
      0 ≤ q ∧ m.tiers = [] := by
  unfold PricingModel.calculate_cost
  by_cases hq : q < 0
  · simp [hq, not_le.mpr hq]
  · rw [if_neg hq]
    cases hs : sort_tiers m.tiers with
    | nil =>
      rw [sort_tiers_eq_nil] at hs
      simp [hs, not_lt.mp hq]
    | cons t0 rest =>
      have hne : m.tiers ≠ [] := by
        intro hcontra
        rw [(sort_tiers_eq_nil m.tiers).mpr hcontra] at hs
        cases hs
      dsimp only
      by_cases h1 : q < t0.min_quantity
      · simp [h1, hne]
      · rw [if_neg h1]
        by_cases h2 : (tier_walk q (t0 :: rest)
            ⟨m.fixed_fee.getD 0, 0, q⟩).remaining_quantity > walk_epsilon
        · simp [h2, hne]
        · simp [h2, hne]

lemma calc_unsupported_iff (m : PricingModel) (q : ℚ) (t0 : PricingTier)
    (rest : List PricingTier) (hs : sort_tiers m.tiers = t0 :: rest) :
    m.calculate_cost q = .error PricingError.unsupportedQuantity ↔
      0 ≤ q ∧ (q < t0.min_quantity ∨
        (t0.min_quantity ≤ q ∧ (tier_walk q (t0 :: rest)
          ⟨m.fixed_fee.getD 0, 0, q⟩).remaining_quantity > walk_epsilon)) := by
  unfold PricingModel.calculate_cost
  by_cases hq : q < 0
  · simp [hq, not_le.mpr hq]
  · rw [if_neg hq, hs]
    dsimp only
    by_cases h1 : q < t0.min_quantity
    · simp [h1, not_lt.mp hq]
    · rw [if_neg h1]
      by_cases h2 : (tier_walk q (t0 :: rest)
          ⟨m.fixed_fee.getD 0, 0, q⟩).remaining_quantity > walk_epsilon
      · simp [h2, not_lt.mp hq, not_lt.mp h1, h1]
      · simp [h2, h1]

lemma calc_ok_iff (m : PricingModel) (q : ℚ) (t0 : PricingTier)
    (rest : List PricingTier) (hs : sort_tiers m.tiers = t0 :: rest) :
    (∃ c, m.calculate_cost q = .ok c) ↔
      0 ≤ q ∧ t0.min_quantity ≤ q ∧ (tier_walk q (t0 :: rest)
        ⟨m.fixed_fee.getD 0, 0, q⟩).remaining_quantity ≤ walk_epsilon := by
  unfold PricingModel.calculate_cost
  by_cases hq : q < 0
  · simp [hq, not_le.mpr hq]
  · rw [if_neg hq, hs]
    dsimp only
    by_cases h1 : q < t0.min_quantity
    · simp [h1, not_le.mpr h1]
    · rw [if_neg h1]
      by_cases h2 : (tier_walk q (t0 :: rest)
          ⟨m.fixed_fee.getD 0, 0, q⟩).remaining_quantity > walk_epsilon
      · simp [h2, not_le.mpr h2]
      · simp [h2, not_lt.mp hq, not_lt.mp h1, not_lt.mp h2]

/-! ## C7 -/

/-- A model with an empty tier list and a fixed fee. -/
def no_tier_model : PricingModel :=
  { id := "pm-empty", version := "v1", component := "simple_model",
    pricing_type := "request", base_unit := "request",
    tiers := [], fixed_fee := some 5 }

/-- C7 counterexample: the claim states that calculate_cost fails with
NoPricingTiers whenever the tier list is empty, regardless of quantity — but
the source checks the sign of the quantity first, so a negative quantity on
an empty-tier model fails with InvalidQuantity, not NoPricingTiers. -/
theorem C7_counterexample :
    no_tier_model.tiers = []
    ∧ no_tier_model.calculate_cost (-1) = .error PricingError.invalidQuantity
    ∧ no_tier_model.calculate_cost (-1) ≠ .error PricingError.noPricingTiers := by
  have h : no_tier_model.calculate_cost (-1)
      = .error PricingError.invalidQuantity := by
    norm_num [no_tier_model, PricingModel.calculate_cost]
  refine ⟨rfl, h, ?_⟩
  rw [h]
  simp

/-- C7 (amended): calculate_cost fails with InvalidQuantity exactly when the
quantity is negative — this check runs first and takes precedence over the
empty-tier check; it fails with NoPricingTiers exactly when the quantity is
non-negative and the tier list is empty, regardless of fixed_fee; with the
sorted tiers non-empty and headed by t0, it fails with UnsupportedQuantity
exactly when the non-negative quantity is strictly below t0.min_quantity, or
when after walking all tiers the residual uncovered quantity exceeds the
epsilon 1e-9; otherwise it returns a cost. -/
theorem C7_amended_calculate_cost_errors (m : PricingModel) (q : ℚ) :
    (m.calculate_cost q = .error PricingError.invalidQuantity ↔ q < 0)
    ∧ (m.calculate_cost q = .error PricingError.noPricingTiers ↔
        0 ≤ q ∧ m.tiers = [])
    ∧ (∀ t0 rest, sort_tiers m.tiers = t0 :: rest →
        (m.calculate_cost q = .error PricingError.unsupportedQuantity ↔
          0 ≤ q ∧ (q < t0.min_quantity ∨ (t0.min_quantity ≤ q ∧
            (tier_walk q (t0 :: rest)
              ⟨m.fixed_fee.getD 0, 0, q⟩).remaining_quantity > walk_epsilon))))
    ∧ (∀ t0 rest, sort_tiers m.tiers = t0 :: rest →
        ((∃ c, m.calculate_cost q = .ok c) ↔
          0 ≤ q ∧ t0.min_quantity ≤ q ∧
            (tier_walk q (t0 :: rest)
              ⟨m.fixed_fee.getD 0, 0, q⟩).remaining_quantity ≤ walk_epsilon)) :=
  ⟨calc_invalid_iff m q, calc_no_tiers_iff m q,
   fun t0 rest hs => calc_unsupported_iff m q t0 rest hs,
   fun t0 rest hs => calc_ok_iff m q t0 rest hs⟩

/-! ## C8 -/

/-- The two-tier model of the tests: 0 to 1000 at 0.01, 1000 up at 0.005, no
fixed fee. -/
def two_tier_model : PricingModel :=
  { id := "pm-tiered", version := "v1.0.0", component := "tiered_model",
    pricing_type := "token", base_unit := "token",
    tiers := [⟨0, some 1000, 1/100⟩, ⟨1000, none, 5/1000⟩] }

/-- C8: progressive marginal accumulation on the two-tier model: 500 units
cost 5.0 (all in the first tier), 1000 units cost 10.0 (the first tier filled
exactly), and 1500 units cost 12.5 — the 500 units beyond the boundary pay
the second tier rate, not a single-bracket rate on the whole quantity. -/
theorem C8_two_tier_boundary_costs :
    two_tier_model.calculate_cost 500 = .ok 5
    ∧ two_tier_model.calculate_cost 1000 = .ok 10
    ∧ two_tier_model.calculate_cost 1500 = .ok (25/2) := by
  refine ⟨?_, ?_, ?_⟩ <;>
    norm_num [two_tier_model, PricingModel.calculate_cost, sort_tiers,
      tier_walk, walk_epsilon, List.insertionSort, List.orderedInsert]

/-! ## C9 -/

/-- C9: for every model with no fixed fee and exactly one tier starting at 0
with no upper bound and unit cost c, calculate_cost returns c * q for every
q at least 0, including q = 0. -/
theorem C9_single_tier_linear (m : PricingModel) (c q : ℚ)
    (ht : m.tiers = [⟨0, none, c⟩]) (hf : m.fixed_fee = none) (hq : 0 ≤ q) :
    m.calculate_cost q = .ok (c * q) := by
  unfold PricingModel.calculate_cost
  rw [if_neg (not_lt.mpr hq), ht, hf]
  rw [show sort_tiers [⟨0, none, c⟩] = [⟨0, none, c⟩] from rfl]
  dsimp only
  rw [if_neg (not_lt.mpr hq)]
  rcases hq.lt_or_eq with hq2 | hq2
  · simp only [tier_walk, Option.getD]
    rw [if_neg (not_le.mpr hq2)]
    rw [if_neg (not_lt.mpr hq)]
    rw [max_self, sub_zero, if_pos hq2]
    simp only [tier_walk, sub_self]
    rw [if_neg (by norm_num [walk_epsilon])]
    rw [zero_add, mul_comm]
  · rw [← hq2]
    simp only [tier_walk, Option.getD]
    rw [if_pos le_rfl]
    rw [if_neg (by norm_num [walk_epsilon])]
    rw [mul_zero]

/-- C9 witness: the single-tier model at unit cost 1 prices 100 units at
1 * 100. -/
theorem C9_witness : basic_model.calculate_cost 100 = .ok (1 * 100) :=
  C9_single_tier_linear basic_model 1 100 rfl rfl (by norm_num)
